import Mathlib

/-!
# Motion Comparison Scoring Engine — formal model

A shallow embedding of the dance-scoring core found in
`react-application/app/skeleton-viewer/utils.ts`:

* `comparePoses2D` — positional RMSD-style distance between two poses after
  translation/scale normalization;
* `comparePosesByAngles2D` / `calculateAngleFromPoints` — joint-angle deviation
  score over a fixed catalog of 8 anatomical triples;
* `SessionScorer` — the stateful scorer (`consumePose`, `computeIntervalScores`)
  with its binary searches for reference alignment and window bounds.

JavaScript numbers are modelled as `ℚ` wherever the source code computes with
exact values (timestamps, raw coordinates, indices) and as `ℝ` after the first
square root or arctangent.  Division by zero in the model yields `0` (Lean's
convention); the only source spots where JavaScript would instead produce `NaN`
are centroid/rms computations over an empty keypoint list, whose results are
then mapped over that same empty list and hence never observed.
-/

namespace DanceScore

/-- A detected keypoint: 2-D position plus an optional joint name (the source
`Keypoint` type has an optional `name`; the detection-confidence field is never
read by any scoring code path and is omitted). -/
structure Keypoint where
  x : ℚ
  y : ℚ
  name : Option String
deriving DecidableEq

/-- A keypoint after normalization: real coordinates (division by a real rms
radius), same optional name. -/
structure NKeypoint where
  x : ℝ
  y : ℝ
  name : Option String

/-- A pose is the list of keypoints of one subject at one instant. -/
structure Pose where
  keypoints : List Keypoint
deriving DecidableEq

instance : Inhabited Pose := ⟨⟨[]⟩⟩

/-- `TimestampedPoses` from `api/endpoints.ts`: the per-frame detector output,
a list of poses plus a millisecond timestamp. -/
structure TimestampedPoses where
  poses : List Pose
  timestamp : ℚ
deriving DecidableEq

instance : Inhabited TimestampedPoses := ⟨⟨[], 0⟩⟩

/-- `LevelData` from `api/endpoints.ts`, restricted to the field the scorer
reads: the reference pose sequence.  (`title` and the level's own `intervals`
field are never read by `SessionScorer`, whose intervals arrive as a
constructor argument.) -/
structure LevelData where
  pose_data : List TimestampedPoses

/-- The x-coordinate of a pose's centroid (utils.ts lines 120–136): the mean
of the keypoint x-coordinates (`0` for an empty pose in the model, where
JavaScript computes `NaN`; the value is only ever mapped over the same, then
empty, keypoint list). -/
def centroidX (p : Pose) : ℚ :=
  (p.keypoints.map (fun kp => kp.x)).sum / (p.keypoints.length : ℚ)

/-- The y-coordinate of a pose's centroid (utils.ts lines 120–136). -/
def centroidY (p : Pose) : ℚ :=
  (p.keypoints.map (fun kp => kp.y)).sum / (p.keypoints.length : ℚ)

/-- The centroid-subtracted keypoints `relative1`/`relative2` of
`comparePoses2D` (utils.ts lines 139–149). -/
def relativeKeypoints (p : Pose) : List Keypoint :=
  p.keypoints.map (fun kp => { x := kp.x - centroidX p, y := kp.y - centroidY p, name := kp.name })

/-- The root-mean-square radius `rmsd1`/`rmsd2` of `comparePoses2D`
(utils.ts lines 152–153): `sqrt(mean(x² + y²))` over the centroid-subtracted
keypoints. -/
noncomputable def rmsRadius (p : Pose) : ℝ :=
  Real.sqrt ((((relativeKeypoints p).map (fun kp => kp.x * kp.x + kp.y * kp.y)).sum /
    ((relativeKeypoints p).length : ℚ) : ℚ) : ℝ)

/-- The normalized keypoints `final1`/`final2` of `comparePoses2D`
(utils.ts lines 156–166): centroid-subtracted coordinates divided by the
pose's root-mean-square radius. -/
noncomputable def normalizePose (p : Pose) : List NKeypoint :=
  (relativeKeypoints p).map (fun kp =>
    { x := (kp.x : ℝ) / rmsRadius p, y := (kp.y : ℝ) / rmsRadius p, name := kp.name })

/-- The accumulation loop of `comparePoses2D` (utils.ts lines 169–176): for
every pair `(kp1, kp2)` drawn from the two lists whose names compare equal,
accumulate the squared Euclidean distance. -/
noncomputable def pairSum (l1 l2 : List NKeypoint) : ℝ :=
  (l1.map (fun kp1 =>
    (l2.map (fun kp2 =>
      if kp1.name = kp2.name then (kp1.x - kp2.x) ^ 2 + (kp1.y - kp2.y) ^ 2 else 0)).sum)).sum

/-- Translation of `comparePoses2D` (utils.ts lines 117–178): normalize both
poses (translation and scale removal) and return the square root of the
accumulated squared distances over name-matched keypoint pairs. -/
noncomputable def comparePoses2D (pose1 pose2 : Pose) : ℝ :=
  Real.sqrt (pairSum (normalizePose pose1) (normalizePose pose2))

/-- Specification-side counterpart of the accumulation loop, written after the
spec's words: every keypoint of the first pose contributes the squared
distance to THE keypoint of the second pose carrying the same name, and
contributes nothing when no such keypoint exists.  Compared against `pairSum`
in the claim about `comparePoses2D`. -/
noncomputable def matchedDistSq (l1 l2 : List NKeypoint) : ℝ :=
  (l1.map (fun kp1 =>
    match l2.find? (fun kp2 => kp1.name == kp2.name) with
    | some kp2 => (kp1.x - kp2.x) ^ 2 + (kp1.y - kp2.y) ^ 2
    | none => 0)).sum

/-- JavaScript `Math.atan2 y x` (the sign-of-zero distinction of IEEE floats is
not modelled; no caller distinguishes `0` from `-0`). -/
noncomputable def atan2 (y x : ℝ) : ℝ :=
  if 0 < x then Real.arctan (y / x)
  else if x < 0 then
    (if 0 ≤ y then Real.arctan (y / x) + Real.pi else Real.arctan (y / x) - Real.pi)
  else
    (if 0 < y then Real.pi / 2 else if y < 0 then -(Real.pi / 2) else 0)

/-- Translation of `calculateAngleFromPoints` (utils.ts lines 226–229):
`atan2(y2-y1, x2-x1) - atan2(y3-y1, x3-x1)`.  Note the vertex of this angle is
the FIRST point `(x1, y1)`. -/
noncomputable def calculateAngleFromPoints (x1 y1 x2 y2 x3 y3 : ℝ) : ℝ :=
  atan2 (y2 - y1) (x2 - x1) - atan2 (y3 - y1) (x3 - x1)

/-- The fixed catalog `angles_to_consider` of `comparePosesByAngles2D`
(utils.ts lines 181–190), in source order. -/
def angles_to_consider : List (String × String × String) :=
  [("left_shoulder", "left_elbow", "left_wrist"),
   ("right_shoulder", "right_elbow", "right_wrist"),
   ("left_hip", "left_knee", "left_ankle"),
   ("right_hip", "right_knee", "right_ankle"),
   ("left_hip", "left_shoulder", "right_shoulder"),
   ("right_hip", "right_shoulder", "left_shoulder"),
   ("left_knee", "left_hip", "right_hip"),
   ("right_knee", "right_hip", "left_hip")]

/-- The keypoint lookup `pose.keypoints.find(kp => kp.name == name)` used by
`comparePosesByAngles2D` (utils.ts lines 199–205): the first keypoint carrying
the given name, if any. -/
def findKp (p : Pose) (n : String) : Option Keypoint :=
  p.keypoints.find? (fun kp => kp.name == some n)

/-- `calculateAngleFromPoints` applied to the raw coordinates of three
keypoints in catalog order (utils.ts lines 211–212); the vertex of the
measured angle is the first keypoint. -/
noncomputable def angleOfTriple (a b c : Keypoint) : ℝ :=
  calculateAngleFromPoints (a.x : ℝ) (a.y : ℝ) (b.x : ℝ) (b.y : ℝ) (c.x : ℝ) (c.y : ℝ)

/-- A JavaScript object used as a string-keyed dictionary of scores. -/
def ScoreDict : Type := String → Option ℝ

/-- Assignment `d[k] = v` on a JavaScript object. -/
def updateScore (d : ScoreDict) (k : String) (v : ℝ) : ScoreDict :=
  fun k2 => if k2 = k then some v else d k2

/-- The empty dictionary `{}`. -/
def emptyScores : ScoreDict := fun _ => none

/-- The loop body of `comparePosesByAngles2D` (utils.ts lines 198–219): for
each catalog triple, look up the three named keypoints in both poses with
`find`; if any is missing, skip the triple entirely; otherwise score
`100 - |angle1 - angle2| / π` where each angle comes from
`calculateAngleFromPoints` on raw coordinates, record it under the middle
joint's name, and add it to the running total. -/
noncomputable def anglesLoop (pose1 pose2 : Pose) :
    List (String × String × String) → ScoreDict → ℝ → ScoreDict × ℝ
  | [], d, total => (d, total)
  | angle :: rest, d, total =>
    match findKp pose1 angle.1, findKp pose1 angle.2.1, findKp pose1 angle.2.2,
          findKp pose2 angle.1, findKp pose2 angle.2.1, findKp pose2 angle.2.2 with
    | some k1a, some k1b, some k1c, some k2a, some k2b, some k2c =>
      let angle_one := angleOfTriple k1a k1b k1c
      let angle_two := angleOfTriple k2a k2b k2c
      let angle_score := 100 - |angle_one - angle_two| / Real.pi
      anglesLoop pose1 pose2 rest (updateScore d angle.2.1 angle_score) (total + angle_score)
    | _, _, _, _, _, _ => anglesLoop pose1 pose2 rest d total

/-- Translation of `comparePosesByAngles2D` (utils.ts lines 180–224): run the
catalog loop starting from the empty dictionary and total `0`, then store the
total under the key `"total"`. -/
noncomputable def comparePosesByAngles2D (pose1 pose2 : Pose) : ScoreDict :=
  let r := anglesLoop pose1 pose2 angles_to_consider emptyScores 0
  updateScore r.1 ("total") r.2

/-- A catalog triple is resolvable in a pose when all three of its named
keypoints are found (with the source's `find` semantics). -/
def resolvableIn (p : Pose) (a : String × String × String) : Bool :=
  (findKp p a.1).isSome && (findKp p a.2.1).isSome && (findKp p a.2.2).isSome

/-- Specification-side definition for the angle claim, written after the
claim's words: the signed angle AT THE MIDDLE keypoint `b` of a triple
`(a, b, c)`, as a difference of `atan2` values of the rays `b → a` and
`b → c`.  Compared against what `comparePosesByAngles2D` actually computes
(whose vertex is the first keypoint). -/
noncomputable def angleAtMiddle (a b c : Keypoint) : ℝ :=
  atan2 ((a.y : ℝ) - (b.y : ℝ)) ((a.x : ℝ) - (b.x : ℝ)) -
    atan2 ((c.y : ℝ) - (b.y : ℝ)) ((c.x : ℝ) - (b.x : ℝ))

/-- The `SessionScorer` state (utils.ts lines 239–254). -/
structure SessionScorer where
  levelData : LevelData
  lastScoredTimestamp : ℚ
  window_size : ℚ
  timestamp_scores : List (ℚ × ℝ)
  current_window_average : ℝ
  intervals : List (ℚ × ℚ)

/-- The `SessionScorer` constructor (utils.ts lines 247–254). -/
def SessionScorer.init (levelData : LevelData) (window_size : ℚ)
    (intervals : List (ℚ × ℚ)) : SessionScorer :=
  { levelData := levelData
    lastScoredTimestamp := 0
    window_size := window_size
    current_window_average := 0
    intervals := intervals
    timestamp_scores := [] }

/-- The closest-reference binary search of `consumePose` (utils.ts lines
268–290), with the loop's mutable variables `left`, `right`, `closestPose`
made explicit.  Indices are integers because `right` drops to `-1` when the
query lies below the whole array.  The loop halves `right + 1 - left` on each
iteration, so any `fuel` exceeding that quantity makes the zero-fuel branch
unreachable; callers pass `data.length + 1` and every lemma below is
fuel-independent above that bound. -/
def closestLoop (data : List TimestampedPoses) (t : ℚ) :
    ℕ → TimestampedPoses → ℤ → ℤ → TimestampedPoses
  | 0, closest, _, _ => closest
  | fuel + 1, closest, left, right =>
    if left ≤ right then
      let mid := (left + right) / 2
      let midPose := data.getD mid.toNat default
      let closest1 :=
        if |midPose.timestamp - t| < |closest.timestamp - t| then midPose else closest
      if midPose.timestamp < t then closestLoop data t fuel closest1 (mid + 1) right
      else if t < midPose.timestamp then closestLoop data t fuel closest1 left (mid - 1)
      else midPose
    else closest

/-- The window-start binary search of `consumePose` (utils.ts lines 312–324):
find the first index whose timestamp is `≥ window_start`; the accumulator
`startIndex` keeps its previous value (initially `0`) when no index
qualifies.  Fuel as in `closestLoop`. -/
def lowerLoop (scores : List (ℚ × ℝ)) (window_start : ℚ) :
    ℕ → ℕ → ℤ → ℤ → ℕ
  | 0, startIndex, _, _ => startIndex
  | fuel + 1, startIndex, left, right =>
    if left ≤ right then
      let mid := (left + right) / 2
      if window_start ≤ (scores.getD mid.toNat default).1 then
        lowerLoop scores window_start fuel mid.toNat left (mid - 1)
      else
        lowerLoop scores window_start fuel startIndex (mid + 1) right
    else startIndex

/-- The window-end binary search of `consumePose` (utils.ts lines 327–339):
find the last index (at or after `startIndex`) whose timestamp is
`≤ window_end`; the accumulator `endIndex` starts at `startIndex`.  Fuel as
in `closestLoop`. -/
def upperLoop (scores : List (ℚ × ℝ)) (window_end : ℚ) :
    ℕ → ℕ → ℤ → ℤ → ℕ
  | 0, endIndex, _, _ => endIndex
  | fuel + 1, endIndex, left, right =>
    if left ≤ right then
      let mid := (left + right) / 2
      if (scores.getD mid.toNat default).1 ≤ window_end then
        upperLoop scores window_end fuel mid.toNat (mid + 1) right
      else
        upperLoop scores window_end fuel endIndex left (mid - 1)
    else endIndex

/-- The reference-alignment entry point of `consumePose` (utils.ts lines
268–290): run the closest-timestamp binary search over the whole reference
array, starting from `closestPose = pose_data[0]`. -/
def alignRef (data : List TimestampedPoses) (t : ℚ) : TimestampedPoses :=
  closestLoop data t (data.length + 1) data.headI 0 ((data.length : ℤ) - 1)

/-- The window slice of `consumePose` (utils.ts lines 312–341): run the two
window binary searches and take `timestamp_scores.slice(startIndex,
endIndex + 1)`. -/
def windowSlice (scores : List (ℚ × ℝ)) (window_start window_end : ℚ) : List (ℚ × ℝ) :=
  let startIndex := lowerLoop scores window_start (scores.length + 1) 0 0 ((scores.length : ℤ) - 1)
  let endIndex :=
    upperLoop scores window_end (scores.length + 1) startIndex (startIndex : ℤ)
      ((scores.length : ℤ) - 1)
  (scores.drop startIndex).take (endIndex + 1 - startIndex)

/-- The window average of `consumePose` (utils.ts lines 344–346): the mean of
the scores in the slice, `0` when the slice is empty. -/
noncomputable def windowAverageOf (window_scores : List (ℚ × ℝ)) : ℝ :=
  if 0 < window_scores.length then
    (window_scores.map Prod.snd).sum / (window_scores.length : ℝ)
  else 0

/-- Translation of `SessionScorer.consumePose` (utils.ts lines 261–349),
returning the updated state together with the returned value.  The source's
`closestPose == null` check (line 292) can never fire, since `closestPose` is
initialized to `pose_data[0]` of a non-empty array, and is therefore not
modelled as a separate branch. -/
noncomputable def consumePose (s : SessionScorer) (poses : TimestampedPoses) :
    SessionScorer × ℝ :=
  if s.levelData.pose_data.length = 0 then (s, s.current_window_average)
  else
    let closestPose := alignRef s.levelData.pose_data poses.timestamp
    if closestPose.timestamp ≤ s.lastScoredTimestamp then (s, s.current_window_average)
    else
      let score := comparePoses2D poses.poses.headI closestPose.poses.headI
      let new_scores := s.timestamp_scores ++ [(closestPose.timestamp, score)]
      let window_average :=
        windowAverageOf (windowSlice new_scores (closestPose.timestamp - s.window_size)
          closestPose.timestamp)
      ({ s with lastScoredTimestamp := closestPose.timestamp
                timestamp_scores := new_scores
                current_window_average := window_average }, window_average)

/-- Translation of `SessionScorer.computeIntervalScores` (utils.ts lines
355–367): for each interval, average the scores of the samples whose
timestamps lie in the closed interval, `0` when none do. -/
noncomputable def computeIntervalScores (s : SessionScorer) : List ℝ :=
  s.intervals.map (fun interval =>
    let window_scores :=
      s.timestamp_scores.filter (fun p => decide (interval.1 ≤ p.1 ∧ p.1 ≤ interval.2))
    if 0 < window_scores.length then
      (window_scores.map Prod.snd).sum / (window_scores.length : ℝ)
    else 0)

/-- A whole session: feed a list of live frames through `consumePose`
sequentially, collecting the returned averages. -/
noncomputable def consumeSeq (s : SessionScorer) :
    List TimestampedPoses → SessionScorer × List ℝ
  | [] => (s, [])
  | p :: rest =>
    let r := consumePose s p
    let rr := consumeSeq r.1 rest
    (rr.1, r.2 :: rr.2)

/-- The session invariant maintained by `consumePose`: the recorded samples
are strictly increasing in timestamp and all lie at or below the watermark
`lastScoredTimestamp`.  It holds for a freshly constructed scorer (no
samples). -/
def ScorerInv (s : SessionScorer) : Prop :=
  s.timestamp_scores.Pairwise (fun a b => a.1 < b.1) ∧
  ∀ q ∈ s.timestamp_scores, q.1 ≤ s.lastScoredTimestamp

/-- Timestamp of the reference entry at index `i` (the model's default entry
out of range). -/
def tsAt (data : List TimestampedPoses) (i : ℕ) : ℚ :=
  (data.getD i default).timestamp

/-- The three-entry reference sequence used by the spec's alignment example:
timestamps 0, 100, 250. -/
def refExample : List TimestampedPoses := [⟨[], 0⟩, ⟨[], 100⟩, ⟨[], 250⟩]

/-- A session over `refExample` whose watermark has already reached 200, so
any input aligning at or below 200 hits the staleness gate. -/
def staleStateW : SessionScorer :=
  { SessionScorer.init ⟨refExample⟩ 5000 [] with lastScoredTimestamp := 200 }

/-- A left arm bent at a right angle: shoulder (0,0), elbow (1,0),
wrist (1,1). -/
def armBent : Pose :=
  ⟨[⟨0, 0, some ("left_shoulder")⟩, ⟨1, 0, some ("left_elbow")⟩, ⟨1, 1, some ("left_wrist")⟩]⟩

/-- A straight left arm: shoulder (0,0), elbow (1,0), wrist (2,0). -/
def armStraight : Pose :=
  ⟨[⟨0, 0, some ("left_shoulder")⟩, ⟨1, 0, some ("left_elbow")⟩, ⟨2, 0, some ("left_wrist")⟩]⟩

/-- A session holding the spec's interval example: samples
`(0,10), (2000,20), (4000,40)` and intervals `[0,3000]`, `[3500,4000]`. -/
noncomputable def intervalExampleState : SessionScorer :=
  { SessionScorer.init ⟨[]⟩ 5000 [(0, 3000), (3500, 4000)] with
      timestamp_scores := [(0, 10), (2000, 20), (4000, 40)] }

/-- A two-keypoint pose with distinct names and unit rms radius after
centering. -/
def pairPose : Pose := ⟨[⟨0, 0, some ("a")⟩, ⟨2, 0, some ("b")⟩]⟩

/-- A one-entry reference level at timestamp 100 holding a real pose. -/
def degLevel : LevelData := ⟨[⟨[armBent], 100⟩]⟩

/-- A live frame at timestamp 100 whose single pose has ZERO keypoints — the
degenerate input of the error-handling claim. -/
def emptyLivePose : TimestampedPoses := ⟨[⟨[]⟩], 100⟩

/-- A mid-session state for the windowed-average claims: reference entry at
6000, window size 5000, two prior samples `(0,10)` and `(2000,20)`, watermark
2000. -/
noncomputable def windowStateW : SessionScorer :=
  { SessionScorer.init ⟨[⟨[armBent], 6000⟩]⟩ 5000 [] with
      timestamp_scores := [(0, 10), (2000, 20)]
      lastScoredTimestamp := 2000 }

/-- A live frame at 5500 (aligning to the reference entry at 6000). -/
def liveFrameW : TimestampedPoses := ⟨[armBent], 5500⟩

/-! ## Branch lemmas for `consumePose` -/

lemma consumePose_empty (s : SessionScorer) (p : TimestampedPoses)
    (h : s.levelData.pose_data.length = 0) :
    consumePose s p = (s, s.current_window_average) := by
  simp [consumePose, h]

lemma consumePose_stale (s : SessionScorer) (p : TimestampedPoses)
    (h : (alignRef s.levelData.pose_data p.timestamp).timestamp ≤ s.lastScoredTimestamp) :
    consumePose s p = (s, s.current_window_average) := by
  by_cases h0 : s.levelData.pose_data.length = 0
  · exact consumePose_empty s p h0
  · simp [consumePose, h0, h]

lemma consumePose_scoring (s : SessionScorer) (p : TimestampedPoses)
    (h0 : ¬ s.levelData.pose_data.length = 0)
    (h1 : s.lastScoredTimestamp < (alignRef s.levelData.pose_data p.timestamp).timestamp) :
    consumePose s p =
      ({ s with
          lastScoredTimestamp := (alignRef s.levelData.pose_data p.timestamp).timestamp
          timestamp_scores := s.timestamp_scores ++
            [((alignRef s.levelData.pose_data p.timestamp).timestamp,
              comparePoses2D p.poses.headI (alignRef s.levelData.pose_data p.timestamp).poses.headI)]
          current_window_average := windowAverageOf (windowSlice
            (s.timestamp_scores ++
              [((alignRef s.levelData.pose_data p.timestamp).timestamp,
                comparePoses2D p.poses.headI (alignRef s.levelData.pose_data p.timestamp).poses.headI)])
            ((alignRef s.levelData.pose_data p.timestamp).timestamp - s.window_size)
            (alignRef s.levelData.pose_data p.timestamp).timestamp) },
       windowAverageOf (windowSlice
          (s.timestamp_scores ++
            [((alignRef s.levelData.pose_data p.timestamp).timestamp,
              comparePoses2D p.poses.headI (alignRef s.levelData.pose_data p.timestamp).poses.headI)])
          ((alignRef s.levelData.pose_data p.timestamp).timestamp - s.window_size)
          (alignRef s.levelData.pose_data p.timestamp).timestamp)) := by
  simp [consumePose, h0, not_le.mpr h1]

lemma consumePose_last_mono (s : SessionScorer) (p : TimestampedPoses) :
    s.lastScoredTimestamp ≤ (consumePose s p).1.lastScoredTimestamp := by
  by_cases h0 : s.levelData.pose_data.length = 0
  · simp [consumePose_empty s p h0]
  · by_cases h1 : (alignRef s.levelData.pose_data p.timestamp).timestamp ≤ s.lastScoredTimestamp
    · simp [consumePose_stale s p h1]
    · rw [consumePose_scoring s p h0 (not_le.mp h1)]
      exact le_of_lt (not_le.mp h1)

lemma consumePose_inv (s : SessionScorer) (p : TimestampedPoses)
    (h : ScorerInv s) : ScorerInv (consumePose s p).1 := by
  by_cases h0 : s.levelData.pose_data.length = 0
  · rw [consumePose_empty s p h0]; exact h
  · by_cases h1 : (alignRef s.levelData.pose_data p.timestamp).timestamp ≤ s.lastScoredTimestamp
    · rw [consumePose_stale s p h1]; exact h
    · rw [consumePose_scoring s p h0 (not_le.mp h1)]
      have hT : s.lastScoredTimestamp < (alignRef s.levelData.pose_data p.timestamp).timestamp :=
        not_le.mp h1
      constructor
      · refine List.pairwise_append.mpr ⟨h.1, List.pairwise_singleton _ _, ?_⟩
        intro a ha b hb
        have hb2 : b = ((alignRef s.levelData.pose_data p.timestamp).timestamp,
            comparePoses2D p.poses.headI (alignRef s.levelData.pose_data p.timestamp).poses.headI) := by
          simpa using hb
        subst hb2
        exact lt_of_le_of_lt (h.2 a ha) hT
      · intro q hq
        rcases List.mem_append.mp hq with hq1 | hq2
        · exact le_of_lt (lt_of_le_of_lt (h.2 q hq1) hT)
        · have : q = ((alignRef s.levelData.pose_data p.timestamp).timestamp,
              comparePoses2D p.poses.headI (alignRef s.levelData.pose_data p.timestamp).poses.headI) := by
            simpa using hq2
          subst this
          exact le_refl _

lemma scorerInv_init (ld : LevelData) (ws : ℚ) (iv : List (ℚ × ℚ)) :
    ScorerInv (SessionScorer.init ld ws iv) := by
  constructor <;> simp [SessionScorer.init]

lemma consumeSeq_inv_mono (inputs : List TimestampedPoses) (s : SessionScorer)
    (h : ScorerInv s) :
    ScorerInv (consumeSeq s inputs).1 ∧
      s.lastScoredTimestamp ≤ (consumeSeq s inputs).1.lastScoredTimestamp := by
  induction inputs generalizing s with
  | nil => exact ⟨h, le_refl _⟩
  | cons p rest ih =>
    have hstep := consumePose_inv s p h
    have hmono := consumePose_last_mono s p
    have := ih (consumePose s p).1 hstep
    exact ⟨this.1, le_trans hmono this.2⟩

/-- **C1.**  The staleness gate: whenever the reference entry chosen by
alignment has a timestamp at or below the watermark `lastScoredTimestamp`,
`consumePose` returns the current window average and leaves the state
untouched.  Consequently `lastScoredTimestamp` never decreases across any
call, and over every sequence of calls on a freshly constructed session the
recorded `timestamp_scores` stay strictly increasing in timestamp. -/
theorem stalenessGate_and_monotonicity :
    (∀ (s : SessionScorer) (p : TimestampedPoses),
      (alignRef s.levelData.pose_data p.timestamp).timestamp ≤ s.lastScoredTimestamp →
      consumePose s p = (s, s.current_window_average)) ∧
    (∀ (s : SessionScorer) (p : TimestampedPoses),
      s.lastScoredTimestamp ≤ (consumePose s p).1.lastScoredTimestamp) ∧
    (∀ (ld : LevelData) (ws : ℚ) (iv : List (ℚ × ℚ)) (inputs : List TimestampedPoses),
      (SessionScorer.init ld ws iv).lastScoredTimestamp ≤
        (consumeSeq (SessionScorer.init ld ws iv) inputs).1.lastScoredTimestamp ∧
      ((consumeSeq (SessionScorer.init ld ws iv) inputs).1.timestamp_scores.Pairwise
        (fun a b => a.1 < b.1))) := by
  refine ⟨fun s p h => consumePose_stale s p h, consumePose_last_mono, ?_⟩
  intro ld ws iv inputs
  have h := consumeSeq_inv_mono inputs (SessionScorer.init ld ws iv) (scorerInv_init ld ws iv)
  exact ⟨h.2, h.1.1⟩

/-- **C9.**  A session constructed over an empty reference sequence is inert:
every sequence of `consumePose` calls leaves the state exactly as constructed
and returns the initial window average `0` for every input (and, the model
being total, never throws). -/
theorem emptyReference_consume_noop (ld : LevelData) (ws : ℚ) (iv : List (ℚ × ℚ))
    (hld : ld.pose_data = []) (inputs : List TimestampedPoses) :
    consumeSeq (SessionScorer.init ld ws iv) inputs =
      (SessionScorer.init ld ws iv, inputs.map (fun _ => 0)) := by
  induction inputs with
  | nil => simp [consumeSeq]
  | cons p rest ih =>
    have hempty : (SessionScorer.init ld ws iv).levelData.pose_data.length = 0 := by
      simp [SessionScorer.init, hld]
    have havg : (SessionScorer.init ld ws iv).current_window_average = 0 := rfl
    simp [consumeSeq, consumePose_empty _ p hempty, havg, ih]

/-- Witness for the staleness-gate theorem: a live frame at 150 over
`refExample` aligns to reference timestamp 100, which is at or below the
watermark 200, so the call returns the current average 0 and changes
nothing. -/
theorem stalenessGate_witness :
    consumePose staleStateW ⟨[], 150⟩ = (staleStateW, 0) := by
  have h := stalenessGate_and_monotonicity.1 staleStateW ⟨[], 150⟩
    (by norm_num [staleStateW, SessionScorer.init, alignRef, refExample, closestLoop,
      show Int.toNat 2 = 2 from rfl])
  rw [h]
  rfl

/-- Witness for the empty-reference theorem: two arbitrary frames fed to a
session with no reference data return 0 twice and leave the state as
constructed. -/
theorem emptyReference_witness :
    consumeSeq (SessionScorer.init ⟨[]⟩ 5000 []) [⟨[], 5⟩, ⟨[], 10⟩] =
      (SessionScorer.init ⟨[]⟩ 5000 [], [0, 0]) := by
  simpa using emptyReference_consume_noop ⟨[]⟩ 5000 [] rfl [⟨[], 5⟩, ⟨[], 10⟩]

/-! ## Correctness of the closest-reference binary search -/

lemma getD_eq_get (data : List TimestampedPoses) (i : ℕ) (hi : i < data.length) :
    data.getD i default = data.get ⟨i, hi⟩ := by
  simp [List.getD_eq_getElem?_getD, List.getElem?_eq_getElem hi]

lemma pairwise_tsAt (data : List TimestampedPoses)
    (hsort : data.Pairwise (fun a b => a.timestamp < b.timestamp)) :
    ∀ i j : ℕ, i < j → j < data.length → tsAt data i < tsAt data j := by
  intro i j hij hj
  have hi : i < data.length := lt_trans hij hj
  rw [tsAt, tsAt, getD_eq_get data i hi, getD_eq_get data j hj]
  exact List.pairwise_iff_get.mp hsort ⟨i, hi⟩ ⟨j, hj⟩ hij

lemma mem_ts_inj (data : List TimestampedPoses)
    (hsort : data.Pairwise (fun a b => a.timestamp < b.timestamp))
    (a b : TimestampedPoses) (ha : a ∈ data) (hb : b ∈ data)
    (hts : a.timestamp = b.timestamp) : a = b := by
  rcases List.mem_iff_get.mp ha with ⟨⟨i, hi⟩, rfl⟩
  rcases List.mem_iff_get.mp hb with ⟨⟨j, hj⟩, rfl⟩
  have hp := List.pairwise_iff_get.mp hsort
  rcases lt_trichotomy i j with hij | hij | hij
  · exact absurd hts (ne_of_lt (hp ⟨i, hi⟩ ⟨j, hj⟩ hij))
  · congr
  · exact absurd hts.symm (ne_of_lt (hp ⟨j, hj⟩ ⟨i, hi⟩ hij))

/-- The while-loop invariant of the closest-timestamp binary search: provided
the watched candidate `closest` is already at least as close as the array
entries flanking the remaining search window, the loop returns an array entry
minimizing the absolute timestamp difference to the query. -/
lemma closestLoop_spec (data : List TimestampedPoses) (t : ℚ)
    (hsort : ∀ i j : ℕ, i < j → j < data.length → tsAt data i < tsAt data j) :
    ∀ (fuel : ℕ) (closest : TimestampedPoses) (left right : ℤ),
    (right + 1 - left).toNat < fuel →
    0 ≤ left → right < (data.length : ℤ) → left ≤ right + 1 →
    closest ∈ data →
    (0 < left → tsAt data (left - 1).toNat < t ∧
        |closest.timestamp - t| ≤ |tsAt data (left - 1).toNat - t|) →
    (right + 1 < (data.length : ℤ) → t < tsAt data (right + 1).toNat ∧
        |closest.timestamp - t| ≤ |tsAt data (right + 1).toNat - t|) →
    closestLoop data t fuel closest left right ∈ data ∧
    ∀ e ∈ data, |(closestLoop data t fuel closest left right).timestamp - t| ≤ |e.timestamp - t| := by
  intro fuel
  induction fuel with
  | zero => intro closest left right hfuel; omega
  | succ fuel ih =>
    intro closest left right hfuel hl hr hlr hmem hL hR
    by_cases hlr2 : left ≤ right
    · -- loop body
      have hml : left ≤ (left + right) / 2 := by omega
      have hmr : (left + right) / 2 ≤ right := by omega
      have hmlen : ((left + right) / 2).toNat < data.length := by omega
      have hmidmem : data.getD ((left + right) / 2).toNat default ∈ data := by
        rw [getD_eq_get data _ hmlen]; exact List.get_mem data _ _
      have hmid_ts : (data.getD ((left + right) / 2).toNat default).timestamp
          = tsAt data ((left + right) / 2).toNat := rfl
      set mid := (left + right) / 2 with hmid
      set midPose := data.getD mid.toNat default with hmidPose
      have hc1mem : (if |midPose.timestamp - t| < |closest.timestamp - t| then midPose else closest) ∈ data := by
        split
        · exact hmidmem
        · exact hmem
      have hc1a : |(if |midPose.timestamp - t| < |closest.timestamp - t| then midPose else closest).timestamp - t|
          ≤ |midPose.timestamp - t| := by
        split
        · exact le_refl _
        · next hcond => exact le_of_not_lt hcond
      have hc1b : |(if |midPose.timestamp - t| < |closest.timestamp - t| then midPose else closest).timestamp - t|
          ≤ |closest.timestamp - t| := by
        split
        · next hcond => exact le_of_lt hcond
        · exact le_refl _
      simp only [closestLoop]
      rw [if_pos hlr2]
      by_cases hb1 : midPose.timestamp < t
      · rw [if_pos hb1]
        refine ih _ (mid + 1) right (by omega) (by omega) hr (by omega) hc1mem ?_ ?_
        · intro _
          have : (mid + 1 - 1).toNat = mid.toNat := by omega
          rw [this]
          exact ⟨by rw [← hmid_ts]; exact hb1, by rw [← hmid_ts]; exact hc1a⟩
        · intro hrb
          exact ⟨(hR hrb).1, le_trans hc1b (hR hrb).2⟩
      · rw [if_neg hb1]
        by_cases hb2 : t < midPose.timestamp
        · rw [if_pos hb2]
          refine ih _ left (mid - 1) (by omega) hl (by omega) (by omega) hc1mem ?_ ?_
          · intro hlp
            exact ⟨(hL hlp).1, le_trans hc1b (hL hlp).2⟩
          · intro _
            have : (mid - 1 + 1).toNat = mid.toNat := by omega
            rw [this]
            exact ⟨by rw [← hmid_ts]; exact hb2, by rw [← hmid_ts]; exact hc1a⟩
        · rw [if_neg hb2]
          have hteq : midPose.timestamp = t := le_antisymm (not_lt.mp hb2) (not_lt.mp hb1)
          refine ⟨hmidmem, fun e _ => ?_⟩
          rw [hteq, sub_self, abs_zero]
          exact abs_nonneg _
    · -- loop exit
      simp only [closestLoop]
      rw [if_neg hlr2]
      refine ⟨hmem, fun e he => ?_⟩
      rcases List.mem_iff_get.mp he with ⟨⟨i, hi⟩, rfl⟩
      have hets : (data.get ⟨i, hi⟩).timestamp = tsAt data i := by
        rw [tsAt, getD_eq_get data i hi]
      rw [hets]
      by_cases hir : (i : ℤ) ≤ right
      · have hlpos : 0 < left := by omega
        obtain ⟨h1, h2⟩ := hL hlpos
        have hile : i ≤ (left - 1).toNat := by omega
        have hlen2 : (left - 1).toNat < data.length := by omega
        have hts_le : tsAt data i ≤ tsAt data (left - 1).toNat := by
          rcases lt_or_eq_of_le hile with hlt | heq
          · exact le_of_lt (hsort i _ hlt hlen2)
          · rw [heq]
        have h3 : tsAt data i < t := lt_of_le_of_lt hts_le h1
        refine le_trans h2 ?_
        rw [abs_of_nonpos (by linarith), abs_of_nonpos (by linarith)]
        linarith
      · have hrlen : right + 1 < (data.length : ℤ) := by omega
        obtain ⟨h1, h2⟩ := hR hrlen
        have hige : (right + 1).toNat ≤ i := by omega
        have hts_ge : tsAt data (right + 1).toNat ≤ tsAt data i := by
          rcases lt_or_eq_of_le hige with hlt | heq
          · exact le_of_lt (hsort _ i hlt hi)
          · rw [heq]
        have h3 : t < tsAt data i := lt_of_lt_of_le h1 hts_ge
        refine le_trans h2 ?_
        rw [abs_of_nonneg (by linarith), abs_of_nonneg (by linarith)]
        linarith

/-- **C2.**  The reference-alignment binary search of `consumePose`: over any
non-empty, strictly-ascending reference sequence it returns an entry of the
sequence whose timestamp minimizes the absolute difference to the query, and
whenever an entry with the exact query timestamp exists, that entry itself is
returned.  In particular, for reference timestamps `[0, 100, 250]`, query 90
aligns to 100, query 260 aligns to 250, and query 50 aligns to 0. -/
theorem alignRef_minimal_abs_diff :
    (∀ (data : List TimestampedPoses) (t : ℚ), data ≠ [] →
      data.Pairwise (fun a b => a.timestamp < b.timestamp) →
      alignRef data t ∈ data ∧
      (∀ e ∈ data, |(alignRef data t).timestamp - t| ≤ |e.timestamp - t|) ∧
      (∀ e ∈ data, e.timestamp = t → alignRef data t = e)) ∧
    alignRef refExample 90 = ⟨[], 100⟩ ∧
    alignRef refExample 260 = ⟨[], 250⟩ ∧
    alignRef refExample 50 = ⟨[], 0⟩ := by
  refine ⟨?_, ?_, ?_, ?_⟩
  · intro data t hne hsort
    have hsort2 := pairwise_tsAt data hsort
    have hmem : data.headI ∈ data := by
      cases data with
      | nil => exact absurd rfl hne
      | cons a l => exact List.mem_cons_self a l
    have hmain := closestLoop_spec data t hsort2 (data.length + 1) data.headI 0
      ((data.length : ℤ) - 1) (by omega) (by omega) (by omega) (by omega) hmem
      (by intro h; omega) (by intro h; omega)
    rw [alignRef]
    refine ⟨hmain.1, hmain.2, fun e he hts => ?_⟩
    have hd := hmain.2 e he
    rw [hts, sub_self, abs_zero] at hd
    have : |(closestLoop data t (data.length + 1) data.headI 0 ((data.length : ℤ) - 1)).timestamp - t| = 0 :=
      le_antisymm hd (abs_nonneg _)
    have hts2 : (closestLoop data t (data.length + 1) data.headI 0 ((data.length : ℤ) - 1)).timestamp = t := by
      have := abs_eq_zero.mp this
      linarith
    exact mem_ts_inj data hsort _ e hmain.1 he (hts2.trans hts.symm)
  · norm_num [alignRef, refExample, closestLoop]
  · norm_num [alignRef, refExample, closestLoop, show Int.toNat 2 = 2 from rfl]
  · norm_num [alignRef, refExample, closestLoop]

/-- Witness for the quantified part of the alignment theorem, at the example
reference sequence and query 90. -/
theorem alignRef_minimal_abs_diff_witness :
    alignRef refExample 90 ∈ refExample ∧
    ∀ e ∈ refExample, |(alignRef refExample 90).timestamp - 90| ≤ |e.timestamp - 90| := by
  have h := alignRef_minimal_abs_diff.1 refExample 90 (by decide)
    (by norm_num [refExample])
  exact ⟨h.1, h.2.1⟩

/-! ## The angle-deviation metric -/

lemma anglesLoop_cons_skip (p1 p2 : Pose) (a : String × String × String)
    (rest : List (String × String × String)) (d : ScoreDict) (tot : ℝ)
    (h : findKp p1 a.1 = none ∨ findKp p1 a.2.1 = none ∨ findKp p1 a.2.2 = none ∨
         findKp p2 a.1 = none ∨ findKp p2 a.2.1 = none ∨ findKp p2 a.2.2 = none) :
    anglesLoop p1 p2 (a :: rest) d tot = anglesLoop p1 p2 rest d tot := by
  rcases h with h | h | h | h | h | h <;> simp [anglesLoop, h]

lemma anglesLoop_cons_score (p1 p2 : Pose) (a : String × String × String)
    (rest : List (String × String × String)) (d : ScoreDict) (tot : ℝ)
    (k1a k1b k1c k2a k2b k2c : Keypoint)
    (h1 : findKp p1 a.1 = some k1a) (h2 : findKp p1 a.2.1 = some k1b)
    (h3 : findKp p1 a.2.2 = some k1c) (h4 : findKp p2 a.1 = some k2a)
    (h5 : findKp p2 a.2.1 = some k2b) (h6 : findKp p2 a.2.2 = some k2c) :
    anglesLoop p1 p2 (a :: rest) d tot =
      anglesLoop p1 p2 rest
        (updateScore d a.2.1
          (100 - |angleOfTriple k1a k1b k1c - angleOfTriple k2a k2b k2c| / Real.pi))
        (tot + (100 - |angleOfTriple k1a k1b k1c - angleOfTriple k2a k2b k2c| / Real.pi)) := by
  simp [anglesLoop, h1, h2, h3, h4, h5, h6]

lemma anglesLoop_untouched (p1 p2 : Pose) (L : List (String × String × String))
    (k : String) (hk : ∀ a ∈ L, a.2.1 ≠ k) :
    ∀ (d : ScoreDict) (tot : ℝ), (anglesLoop p1 p2 L d tot).1 k = d k := by
  induction L with
  | nil => intro d tot; rfl
  | cons a L ih =>
    intro d tot
    have hka : a.2.1 ≠ k := hk a (List.mem_cons_self a L)
    have hkL : ∀ b ∈ L, b.2.1 ≠ k := fun b hb => hk b (List.mem_cons_of_mem a hb)
    by_cases hres : (findKp p1 a.1).isSome ∧ (findKp p1 a.2.1).isSome ∧
        (findKp p1 a.2.2).isSome ∧ (findKp p2 a.1).isSome ∧
        (findKp p2 a.2.1).isSome ∧ (findKp p2 a.2.2).isSome
    · obtain ⟨c1, c2, c3, c4, c5, c6⟩ := hres
      obtain ⟨k1a, e1⟩ := Option.isSome_iff_exists.mp c1
      obtain ⟨k1b, e2⟩ := Option.isSome_iff_exists.mp c2
      obtain ⟨k1c, e3⟩ := Option.isSome_iff_exists.mp c3
      obtain ⟨k2a, e4⟩ := Option.isSome_iff_exists.mp c4
      obtain ⟨k2b, e5⟩ := Option.isSome_iff_exists.mp c5
      obtain ⟨k2c, e6⟩ := Option.isSome_iff_exists.mp c6
      rw [anglesLoop_cons_score p1 p2 a L d tot k1a k1b k1c k2a k2b k2c e1 e2 e3 e4 e5 e6,
        ih hkL]
      simp [updateScore, Ne.symm hka]
    · simp only [not_and_or, Option.not_isSome_iff_eq_none] at hres
      rw [anglesLoop_cons_skip p1 p2 a L d tot hres, ih hkL]

lemma anglesLoop_key_none (p1 p2 : Pose) (L : List (String × String × String))
    (k : String)
    (hk : ∀ a ∈ L, a.2.1 = k → ¬((findKp p1 a.1).isSome ∧ (findKp p1 a.2.1).isSome ∧
        (findKp p1 a.2.2).isSome ∧ (findKp p2 a.1).isSome ∧
        (findKp p2 a.2.1).isSome ∧ (findKp p2 a.2.2).isSome)) :
    ∀ (d : ScoreDict) (tot : ℝ), d k = none → (anglesLoop p1 p2 L d tot).1 k = none := by
  induction L with
  | nil => intro d tot hd; exact hd
  | cons a L ih =>
    intro d tot hd
    have hkL : ∀ b ∈ L, b.2.1 = k → _ := fun b hb => hk b (List.mem_cons_of_mem a hb)
    by_cases hres : (findKp p1 a.1).isSome ∧ (findKp p1 a.2.1).isSome ∧
        (findKp p1 a.2.2).isSome ∧ (findKp p2 a.1).isSome ∧
        (findKp p2 a.2.1).isSome ∧ (findKp p2 a.2.2).isSome
    · have hka : a.2.1 ≠ k := fun hEq => hk a (List.mem_cons_self a L) hEq hres
      obtain ⟨c1, c2, c3, c4, c5, c6⟩ := hres
      obtain ⟨k1a, e1⟩ := Option.isSome_iff_exists.mp c1
      obtain ⟨k1b, e2⟩ := Option.isSome_iff_exists.mp c2
      obtain ⟨k1c, e3⟩ := Option.isSome_iff_exists.mp c3
      obtain ⟨k2a, e4⟩ := Option.isSome_iff_exists.mp c4
      obtain ⟨k2b, e5⟩ := Option.isSome_iff_exists.mp c5
      obtain ⟨k2c, e6⟩ := Option.isSome_iff_exists.mp c6
      rw [anglesLoop_cons_score p1 p2 a L d tot k1a k1b k1c k2a k2b k2c e1 e2 e3 e4 e5 e6]
      exact ih hkL _ _ (by simp [updateScore, Ne.symm hka, hd])
    · simp only [not_and_or, Option.not_isSome_iff_eq_none] at hres
      rw [anglesLoop_cons_skip p1 p2 a L d tot hres]
      exact ih hkL d tot hd

lemma anglesLoop_key_resolved (p1 p2 : Pose) (a : String × String × String)
    (k1a k1b k1c k2a k2b k2c : Keypoint)
    (h1 : findKp p1 a.1 = some k1a) (h2 : findKp p1 a.2.1 = some k1b)
    (h3 : findKp p1 a.2.2 = some k1c) (h4 : findKp p2 a.1 = some k2a)
    (h5 : findKp p2 a.2.1 = some k2b) (h6 : findKp p2 a.2.2 = some k2c) :
    ∀ (L : List (String × String × String)), a ∈ L →
    (∀ b ∈ L, b.2.1 = a.2.1 → b = a) → L.Nodup →
    ∀ (d : ScoreDict) (tot : ℝ),
    (anglesLoop p1 p2 L d tot).1 a.2.1 =
      some (100 - |angleOfTriple k1a k1b k1c - angleOfTriple k2a k2b k2c| / Real.pi) := by
  intro L
  induction L with
  | nil => intro h; exact absurd h (List.not_mem_nil a)
  | cons b L ih =>
    intro haL huniq hnodup d tot
    by_cases hab : b = a
    · subst hab
      rw [anglesLoop_cons_score p1 p2 b L d tot k1a k1b k1c k2a k2b k2c h1 h2 h3 h4 h5 h6]
      have hbnotin : b ∉ L := (List.nodup_cons.mp hnodup).1
      have hnotin : ∀ c ∈ L, c.2.1 ≠ b.2.1 := by
        intro c hc hceq
        have hcb := huniq c (List.mem_cons_of_mem b hc) hceq
        exact hbnotin (hcb ▸ hc)
      rw [anglesLoop_untouched p1 p2 L b.2.1 hnotin]
      simp [updateScore]
    · have haL2 : a ∈ L := by
        rcases List.mem_cons.mp haL with h | h
        · exact absurd h.symm hab
        · exact h
      have huniq2 : ∀ c ∈ L, c.2.1 = a.2.1 → c = a :=
        fun c hc => huniq c (List.mem_cons_of_mem b hc)
      have hnodup2 : L.Nodup := (List.nodup_cons.mp hnodup).2
      by_cases hres : (findKp p1 b.1).isSome ∧ (findKp p1 b.2.1).isSome ∧
          (findKp p1 b.2.2).isSome ∧ (findKp p2 b.1).isSome ∧
          (findKp p2 b.2.1).isSome ∧ (findKp p2 b.2.2).isSome
      · obtain ⟨c1, c2, c3, c4, c5, c6⟩ := hres
        obtain ⟨j1, e1⟩ := Option.isSome_iff_exists.mp c1
        obtain ⟨j2, e2⟩ := Option.isSome_iff_exists.mp c2
        obtain ⟨j3, e3⟩ := Option.isSome_iff_exists.mp c3
        obtain ⟨j4, e4⟩ := Option.isSome_iff_exists.mp c4
        obtain ⟨j5, e5⟩ := Option.isSome_iff_exists.mp c5
        obtain ⟨j6, e6⟩ := Option.isSome_iff_exists.mp c6
        rw [anglesLoop_cons_score p1 p2 b L d tot j1 j2 j3 j4 j5 j6 e1 e2 e3 e4 e5 e6]
        exact ih haL2 huniq2 hnodup2 _ _
      · simp only [not_and_or, Option.not_isSome_iff_eq_none] at hres
        rw [anglesLoop_cons_skip p1 p2 b L d tot hres]
        exact ih haL2 huniq2 hnodup2 d tot

lemma anglesLoop_self_total (p : Pose) (L : List (String × String × String)) :
    ∀ (d : ScoreDict) (tot : ℝ),
    (anglesLoop p p L d tot).2 = tot + 100 * (L.countP (resolvableIn p) : ℝ) := by
  induction L with
  | nil => intro d tot; simp [anglesLoop]
  | cons a L ih =>
    intro d tot
    by_cases hres : (findKp p a.1).isSome ∧ (findKp p a.2.1).isSome ∧ (findKp p a.2.2).isSome
    · obtain ⟨c1, c2, c3⟩ := hres
      obtain ⟨k1, e1⟩ := Option.isSome_iff_exists.mp c1
      obtain ⟨k2, e2⟩ := Option.isSome_iff_exists.mp c2
      obtain ⟨k3, e3⟩ := Option.isSome_iff_exists.mp c3
      rw [anglesLoop_cons_score p p a L d tot k1 k2 k3 k1 k2 k3 e1 e2 e3 e1 e2 e3, ih]
      have hcount : (a :: L).countP (resolvableIn p) = L.countP (resolvableIn p) + 1 := by
        simp [List.countP_cons, resolvableIn, c1, c2, c3]
      rw [hcount]
      push_cast
      simp only [sub_self, abs_zero, zero_div, sub_zero]
      ring
    · have hnone : findKp p a.1 = none ∨ findKp p a.2.1 = none ∨ findKp p a.2.2 = none ∨
          findKp p a.1 = none ∨ findKp p a.2.1 = none ∨ findKp p a.2.2 = none := by
        simp only [not_and_or, Option.not_isSome_iff_eq_none] at hres
        tauto
      rw [anglesLoop_cons_skip p p a L d tot hnone, ih]
      have hfalse : resolvableIn p a = false := by
        simp only [not_and_or, Option.not_isSome_iff_eq_none] at hres
        rcases hres with h | h | h <;> simp [resolvableIn, h]
      have hcount : (a :: L).countP (resolvableIn p) = L.countP (resolvableIn p) := by
        simp [List.countP_cons, hfalse]
      rw [hcount]

/-- **C7.**  Self-comparison through the angle metric: `compareByAngles(P, P)`
maps `"total"` to exactly `100 *` (number of catalog triples all of whose
named keypoints are present in `P`), and a triple with any keypoint missing
leaves no per-angle entry at all under its middle joint's name. -/
theorem compareByAngles_self_total (p : Pose) :
    comparePosesByAngles2D p p ("total") =
      some (100 * (angles_to_consider.countP (resolvableIn p) : ℝ)) ∧
    ∀ a ∈ angles_to_consider, resolvableIn p a = false →
      comparePosesByAngles2D p p a.2.1 = none := by
  constructor
  · rw [comparePosesByAngles2D]
    simp only [updateScore, if_pos rfl]
    rw [anglesLoop_self_total p angles_to_consider emptyScores 0]
    norm_num
  · intro a ha hfalse
    rw [comparePosesByAngles2D]
    have hne : a.2.1 ≠ ("total") := by
      have h : ∀ b ∈ angles_to_consider, b.2.1 ≠ ("total") := by decide
      exact h a ha
    simp only [updateScore, if_neg hne]
    have huniqAll : ∀ a2 ∈ angles_to_consider, ∀ b ∈ angles_to_consider,
        b.2.1 = a2.2.1 → b = a2 := by decide
    refine anglesLoop_key_none p p angles_to_consider a.2.1 ?_ emptyScores 0 rfl
    intro b hb hbk hres2
    have hba : b = a := huniqAll a ha b hb hbk
    subst hba
    obtain ⟨r1, r2, r3, -, -, -⟩ := hres2
    simp [resolvableIn, r1, r2, r3] at hfalse

/-- Witness for the self-comparison theorem at a concrete pose containing the
left-arm triple only: total 100, and no `"right_elbow"` entry. -/
theorem compareByAngles_self_total_witness :
    comparePosesByAngles2D armBent armBent ("total") = some 100 ∧
    comparePosesByAngles2D armBent armBent ("right_elbow") = none := by
  have h := compareByAngles_self_total armBent
  constructor
  · rw [h.1]
    norm_num [show angles_to_consider.countP (resolvableIn armBent) = 1 from by decide]
  · exact h.2 ("right_shoulder", "right_elbow", "right_wrist") (by decide) (by decide)

lemma atan2_zero_pos (x : ℝ) (hx : 0 < x) : atan2 0 x = 0 := by
  simp [atan2, hx]

lemma atan2_one_one : atan2 1 1 = Real.pi / 4 := by
  norm_num [atan2, Real.arctan_one]

lemma atan2_zero_negone : atan2 0 (-1) = Real.pi := by
  norm_num [atan2]

lemma atan2_one_zero : atan2 1 0 = Real.pi / 2 := by
  norm_num [atan2]

/-- **C6 (amended).**  For every catalog triple `(A, B, C)` resolvable in both
poses, the per-angle entry recorded by `compareByAngles` under the middle
joint's name is `100 - |Δ| / π` where each pose's angle is measured at the
FIRST keypoint `A` of the triple — `atan2(B - A) - atan2(C - A)` on raw
coordinates (see `angleOfTriple` and `calculateAngleFromPoints`) — not at the
middle keypoint. -/
theorem compareByAngles_vertex_first (p1 p2 : Pose) (a : String × String × String)
    (ha : a ∈ angles_to_consider) (k1a k1b k1c k2a k2b k2c : Keypoint)
    (h1 : findKp p1 a.1 = some k1a) (h2 : findKp p1 a.2.1 = some k1b)
    (h3 : findKp p1 a.2.2 = some k1c) (h4 : findKp p2 a.1 = some k2a)
    (h5 : findKp p2 a.2.1 = some k2b) (h6 : findKp p2 a.2.2 = some k2c) :
    comparePosesByAngles2D p1 p2 a.2.1 =
      some (100 - |angleOfTriple k1a k1b k1c - angleOfTriple k2a k2b k2c| / Real.pi) := by
  rw [comparePosesByAngles2D]
  have hne : a.2.1 ≠ ("total") := by
    have h : ∀ b ∈ angles_to_consider, b.2.1 ≠ ("total") := by decide
    exact h a ha
  simp only [updateScore, if_neg hne]
  have huniqAll : ∀ a2 ∈ angles_to_consider, ∀ b ∈ angles_to_consider,
      b.2.1 = a2.2.1 → b = a2 := by decide
  exact anglesLoop_key_resolved p1 p2 a k1a k1b k1c k2a k2b k2c h1 h2 h3 h4 h5 h6
    angles_to_consider ha (huniqAll a ha) (by decide) emptyScores 0

/-- Witness for the vertex-at-first-keypoint theorem, at the two concrete arm
poses. -/
theorem compareByAngles_vertex_first_witness :
    comparePosesByAngles2D armBent armStraight ("left_elbow") =
      some (100 - |angleOfTriple ⟨0, 0, some ("left_shoulder")⟩ ⟨1, 0, some ("left_elbow")⟩
          ⟨1, 1, some ("left_wrist")⟩ -
        angleOfTriple ⟨0, 0, some ("left_shoulder")⟩ ⟨1, 0, some ("left_elbow")⟩
          ⟨2, 0, some ("left_wrist")⟩| / Real.pi) :=
  compareByAngles_vertex_first armBent armStraight
    ("left_shoulder", "left_elbow", "left_wrist") (by decide)
    _ _ _ _ _ _ rfl rfl rfl rfl rfl rfl

/-- **C6 (counterexample).**  At the concrete poses `armBent`/`armStraight`,
the `"left_elbow"` entry produced by `compareByAngles` equals `100 - 1/4`
(vertex at the shoulder, the triple's FIRST keypoint), whereas the score the
claim prescribes — vertex at the middle keypoint, the elbow — would be
`100 - 1/2`.  The claim is therefore false as stated. -/
theorem compareByAngles_middle_vertex_counterexample :
    comparePosesByAngles2D armBent armStraight ("left_elbow") = some (100 - (4 : ℝ)⁻¹) ∧
    (100 - (4 : ℝ)⁻¹) ≠
      100 - |angleAtMiddle ⟨0, 0, some ("left_shoulder")⟩ ⟨1, 0, some ("left_elbow")⟩
          ⟨1, 1, some ("left_wrist")⟩ -
        angleAtMiddle ⟨0, 0, some ("left_shoulder")⟩ ⟨1, 0, some ("left_elbow")⟩
          ⟨2, 0, some ("left_wrist")⟩| / Real.pi := by
  have e1 : angleOfTriple ⟨0, 0, some ("left_shoulder")⟩ ⟨1, 0, some ("left_elbow")⟩
      ⟨1, 1, some ("left_wrist")⟩ = -(Real.pi / 4) := by
    rw [angleOfTriple, calculateAngleFromPoints]
    norm_num [atan2_zero_pos, atan2_one_one]
  have e2 : angleOfTriple ⟨0, 0, some ("left_shoulder")⟩ ⟨1, 0, some ("left_elbow")⟩
      ⟨2, 0, some ("left_wrist")⟩ = 0 := by
    rw [angleOfTriple, calculateAngleFromPoints]
    norm_num [atan2_zero_pos]
  have m1 : angleAtMiddle ⟨0, 0, some ("left_shoulder")⟩ ⟨1, 0, some ("left_elbow")⟩
      ⟨1, 1, some ("left_wrist")⟩ = Real.pi / 2 := by
    rw [angleAtMiddle]
    norm_num [atan2_zero_negone, atan2_one_zero]
    ring
  have m2 : angleAtMiddle ⟨0, 0, some ("left_shoulder")⟩ ⟨1, 0, some ("left_elbow")⟩
      ⟨2, 0, some ("left_wrist")⟩ = Real.pi := by
    rw [angleAtMiddle]
    norm_num [atan2_zero_negone, atan2_zero_pos]
  constructor
  · rw [comparePosesByAngles2D]
    simp only [updateScore, if_neg (show ("left_elbow" : String) ≠ ("total") from by decide)]
    rw [anglesLoop_key_resolved armBent armStraight
      ("left_shoulder", "left_elbow", "left_wrist") _ _ _ _ _ _ rfl rfl rfl rfl rfl rfl
      angles_to_consider (by decide) (by decide) (by decide) emptyScores 0]
    rw [e1, e2]
    have : |(-(Real.pi / 4)) - 0| / Real.pi = (4 : ℝ)⁻¹ := by
      rw [sub_zero, abs_neg, abs_of_nonneg (by positivity)]
      field_simp
      ring
    rw [this]
  · rw [m1, m2]
    have : |Real.pi / 2 - Real.pi| / Real.pi = (2 : ℝ)⁻¹ := by
      rw [show Real.pi / 2 - Real.pi = -(Real.pi / 2) by ring, abs_neg,
        abs_of_nonneg (by positivity)]
      field_simp
      ring
    rw [this]
    norm_num

/-! ## Interval aggregation -/

/-- **C8.**  `computeIntervalScores` returns one entry per configured
interval, in interval order; entry `i` is the arithmetic mean of the scores of
exactly those samples whose timestamp lies in the closed interval
`[start, end]` (membership in `Set.Icc`), and `0` when no sample does.  The
function is a pure query: it takes the state and returns only a list, so no
session state is modified.  On the spec's example — samples
`(0,10), (2000,20), (4000,40)` with intervals `[0,3000]` and `[3500,4000]` —
it returns `[15, 40]`. -/
theorem computeIntervalScores_spec :
    (∀ s : SessionScorer, (computeIntervalScores s).length = s.intervals.length) ∧
    (∀ (s : SessionScorer) (i : ℕ), i < s.intervals.length →
      (computeIntervalScores s).getD i 0 =
        (let ival := s.intervals.getD i (0, 0)
         let inRange := s.timestamp_scores.filter (fun q => decide (q.1 ∈ Set.Icc ival.1 ival.2))
         if inRange.length = 0 then 0 else (inRange.map Prod.snd).sum / (inRange.length : ℝ))) ∧
    computeIntervalScores intervalExampleState = [15, 40] := by
  refine ⟨fun s => by simp [computeIntervalScores], ?_, ?_⟩
  · intro s i hi
    have hi2 : i < (computeIntervalScores s).length := by simp [computeIntervalScores, hi]
    rw [List.getD_eq_getElem?_getD, List.getElem?_eq_getElem hi2,
      List.getD_eq_getElem?_getD, List.getElem?_eq_getElem hi]
    simp only [computeIntervalScores, List.getElem_map, Option.getD_some]
    have hfilter :
        s.timestamp_scores.filter
          (fun p => decide (s.intervals[i].1 ≤ p.1 ∧ p.1 ≤ s.intervals[i].2)) =
        s.timestamp_scores.filter
          (fun q => decide (q.1 ∈ Set.Icc (s.intervals[i].1) (s.intervals[i].2))) :=
      List.filter_congr (fun q _ => by simp [Set.mem_Icc])
    rw [hfilter]
    by_cases h0 : (s.timestamp_scores.filter
        (fun q => decide (q.1 ∈ Set.Icc (s.intervals[i].1) (s.intervals[i].2)))).length = 0
    · rw [if_neg (by omega), if_pos h0]
    · rw [if_pos (Nat.pos_of_ne_zero h0), if_neg h0]
  · norm_num [computeIntervalScores, intervalExampleState, SessionScorer.init]

/-- Witness for the interval-aggregation theorem, at the example state and
interval index 0. -/
theorem computeIntervalScores_spec_witness :
    (0 < intervalExampleState.intervals.length) ∧
    (computeIntervalScores intervalExampleState).getD 0 0 =
      (let ival := intervalExampleState.intervals.getD 0 (0, 0)
       let inRange := intervalExampleState.timestamp_scores.filter
         (fun q => decide (q.1 ∈ Set.Icc ival.1 ival.2))
       if inRange.length = 0 then 0 else (inRange.map Prod.snd).sum / (inRange.length : ℝ)) :=
  ⟨by norm_num [intervalExampleState, SessionScorer.init],
   computeIntervalScores_spec.2.1 intervalExampleState 0
     (by norm_num [intervalExampleState, SessionScorer.init])⟩

/-! ## The positional distance metric -/

lemma inner_sum_eq_find (kp1 : NKeypoint) :
    ∀ l2 : List NKeypoint, (l2.map (fun kp => kp.name)).Nodup →
    (l2.map (fun kp2 =>
      if kp1.name = kp2.name then (kp1.x - kp2.x) ^ 2 + (kp1.y - kp2.y) ^ 2 else 0)).sum =
    (match l2.find? (fun kp2 => kp1.name == kp2.name) with
     | some kp2 => (kp1.x - kp2.x) ^ 2 + (kp1.y - kp2.y) ^ 2
     | none => 0) := by
  intro l2
  induction l2 with
  | nil => intro _; simp
  | cons b l ih =>
    intro hnodup
    by_cases hname : kp1.name = b.name
    · rw [List.map_cons, List.sum_cons, if_pos hname,
        List.find?_cons_of_pos _ (by simp [hname])]
      have hrest : (l.map (fun kp2 =>
          if kp1.name = kp2.name then (kp1.x - kp2.x) ^ 2 + (kp1.y - kp2.y) ^ 2 else 0)).sum = 0 := by
        apply List.sum_eq_zero
        intro x hx
        rcases List.mem_map.mp hx with ⟨kp2, hkp2, rfl⟩
        have hne : kp1.name ≠ kp2.name := by
          intro hEq
          exact (List.nodup_cons.mp hnodup).1
            (List.mem_map.mpr ⟨kp2, hkp2, (hname ▸ hEq).symm⟩)
        rw [if_neg hne]
      rw [hrest, add_zero]
    · rw [List.map_cons, List.sum_cons, if_neg hname, zero_add,
        List.find?_cons_of_neg _ (by simp [hname])]
      exact ih (List.nodup_cons.mp hnodup).2

lemma pairSum_eq_matchedDistSq (l1 l2 : List NKeypoint)
    (hnodup : (l2.map (fun kp => kp.name)).Nodup) :
    pairSum l1 l2 = matchedDistSq l1 l2 := by
  rw [pairSum, matchedDistSq]
  congr 1
  exact List.map_congr_left (fun kp1 _ => inner_sum_eq_find kp1 l2 hnodup)

lemma normalizePose_names (p : Pose) :
    (normalizePose p).map (fun kp => kp.name) = p.keypoints.map (fun kp => kp.name) := by
  simp [normalizePose, relativeKeypoints, List.map_map]

/-- **C4.**  For non-degenerate poses with at most one keypoint per name,
`comparePoses2D` first normalizes each pose — centroid subtraction then
division by the root-mean-square radius (`normalizePose`, built from
`relativeKeypoints` and `rmsRadius`) — and returns the square root of the SUM
(not the mean) of squared Euclidean distances over exactly the name-matched
keypoint pairs; a keypoint whose name appears in only one pose contributes
nothing (`matchedDistSq` returns 0 for it). -/
theorem comparePoses_matched_sum (p1 p2 : Pose)
    (hk1 : p1.keypoints ≠ []) (hk2 : p2.keypoints ≠ [])
    (hr1 : rmsRadius p1 ≠ 0) (hr2 : rmsRadius p2 ≠ 0)
    (hn1 : (p1.keypoints.map (fun kp => kp.name)).Nodup)
    (hn2 : (p2.keypoints.map (fun kp => kp.name)).Nodup) :
    comparePoses2D p1 p2 =
      Real.sqrt (matchedDistSq (normalizePose p1) (normalizePose p2)) := by
  rw [comparePoses2D,
    pairSum_eq_matchedDistSq _ _ (by rw [normalizePose_names]; exact hn2)]

/-- Witness for the matched-sum theorem at the concrete two-keypoint pose
(whose rms radius is 1). -/
theorem comparePoses_matched_sum_witness :
    rmsRadius pairPose ≠ 0 ∧
    comparePoses2D pairPose pairPose =
      Real.sqrt (matchedDistSq (normalizePose pairPose) (normalizePose pairPose)) := by
  have hr : rmsRadius pairPose = 1 := by
    rw [rmsRadius]
    norm_num [relativeKeypoints, centroidX, centroidY, pairPose]
  refine ⟨by rw [hr]; norm_num, ?_⟩
  exact comparePoses_matched_sum pairPose pairPose (by decide) (by decide)
    (by rw [hr]; norm_num) (by rw [hr]; norm_num) (by decide) (by decide)

/-! ## Degenerate live pose: scored, not skipped -/

/-- **C5 (code evaluation at the failing input).**  A live frame whose pose
has ZERO keypoints is NOT skipped by `consumePose`: the empty double loop
yields distance `sqrt 0 = 0`, so the sample `(100, 0)` is appended to
`timestamp_scores` and the watermark advances to 100 — the state does
change, contradicting the claim's required skip-and-leave-unchanged
behavior. -/
theorem degeneratePose_scored_not_skipped :
    (consumePose (SessionScorer.init degLevel 5000 []) emptyLivePose).1.timestamp_scores
        = [(100, 0)] ∧
    (consumePose (SessionScorer.init degLevel 5000 []) emptyLivePose).1.lastScoredTimestamp
        = 100 := by
  have h0 : ¬ (SessionScorer.init degLevel 5000 []).levelData.pose_data.length = 0 := by
    norm_num [SessionScorer.init, degLevel]
  have halign : alignRef degLevel.pose_data emptyLivePose.timestamp = ⟨[armBent], 100⟩ := by
    norm_num [alignRef, closestLoop, degLevel, emptyLivePose]
  have h1 : (SessionScorer.init degLevel 5000 []).lastScoredTimestamp <
      (alignRef (SessionScorer.init degLevel 5000 []).levelData.pose_data
        emptyLivePose.timestamp).timestamp := by
    show (0 : ℚ) < (alignRef degLevel.pose_data emptyLivePose.timestamp).timestamp
    rw [halign]
    norm_num
  have hscore : comparePoses2D emptyLivePose.poses.headI
      (alignRef degLevel.pose_data emptyLivePose.timestamp).poses.headI = 0 := by
    rw [halign]
    have he : emptyLivePose.poses.headI = (⟨[]⟩ : Pose) := rfl
    rw [he, comparePoses2D]
    have hempty : normalizePose (⟨[]⟩ : Pose) = [] := rfl
    rw [hempty]
    simp [pairSum]
  rw [consumePose_scoring _ _ h0 h1]
  constructor
  · show (SessionScorer.init degLevel 5000 []).timestamp_scores ++
      [((alignRef degLevel.pose_data emptyLivePose.timestamp).timestamp,
        comparePoses2D emptyLivePose.poses.headI
          (alignRef degLevel.pose_data emptyLivePose.timestamp).poses.headI)] = [(100, 0)]
    rw [hscore, halign]
    simp [SessionScorer.init]
  · show (alignRef degLevel.pose_data emptyLivePose.timestamp).timestamp = 100
    rw [halign]

/-! ## Correctness of the window binary searches -/

lemma getDpair_eq_get (l : List (ℚ × ℝ)) (i : ℕ) (hi : i < l.length) :
    l.getD i default = l.get ⟨i, hi⟩ := by
  simp [List.getD_eq_getElem?_getD, List.getElem?_eq_getElem hi]

lemma pairwise_fst_index (l : List (ℚ × ℝ))
    (h : l.Pairwise (fun a b => a.1 < b.1)) :
    ∀ i j : ℕ, i < j → j < l.length → (l.getD i default).1 < (l.getD j default).1 := by
  intro i j hij hj
  have hi : i < l.length := lt_trans hij hj
  rw [getDpair_eq_get _ i hi, getDpair_eq_get _ j hj]
  exact List.pairwise_iff_get.mp h ⟨i, hi⟩ ⟨j, hj⟩ hij

lemma upperLoop_exit (scores : List (ℚ × ℝ)) (w : ℚ) (fuel : ℕ) (acc : ℕ)
    (left right : ℤ) (h : ¬ left ≤ right) :
    upperLoop scores w fuel acc left right = acc := by
  cases fuel <;> simp [upperLoop, h]

/-- The window-start search returns either the sentinel 0 with every
timestamp below the window start, or the first index at or above it. -/
lemma lowerLoop_spec (scores : List (ℚ × ℝ)) (w : ℚ)
    (hsort : ∀ i j : ℕ, i < j → j < scores.length →
      (scores.getD i default).1 < (scores.getD j default).1) :
    ∀ (fuel : ℕ) (acc : ℕ) (left right : ℤ),
    (right + 1 - left).toNat < fuel →
    0 ≤ left → right < (scores.length : ℤ) → left ≤ right + 1 →
    (∀ i : ℕ, (i : ℤ) < left → i < scores.length → (scores.getD i default).1 < w) →
    ((acc = (right + 1).toNat ∧ right + 1 < (scores.length : ℤ) ∧
        w ≤ (scores.getD acc default).1) ∨
      (acc = 0 ∧ right = (scores.length : ℤ) - 1)) →
    ((lowerLoop scores w fuel acc left right = 0 ∧
        ∀ i : ℕ, i < scores.length → (scores.getD i default).1 < w) ∨
      (lowerLoop scores w fuel acc left right < scores.length ∧
        w ≤ (scores.getD (lowerLoop scores w fuel acc left right) default).1 ∧
        ∀ i : ℕ, i < lowerLoop scores w fuel acc left right →
          (scores.getD i default).1 < w)) := by
  intro fuel
  induction fuel with
  | zero => intro acc left right hfuel; omega
  | succ fuel ih =>
    intro acc left right hfuel hl hr hlr hJ1 hJ2
    by_cases hlr2 : left ≤ right
    · have hml : left ≤ (left + right) / 2 := by omega
      have hmr : (left + right) / 2 ≤ right := by omega
      simp only [lowerLoop]
      rw [if_pos hlr2]
      by_cases hcond : w ≤ (scores.getD ((left + right) / 2).toNat default).1
      · rw [if_pos hcond]
        apply ih ((left + right) / 2).toNat left ((left + right) / 2 - 1) (by omega) hl
          (by omega) (by omega) hJ1
        left
        refine ⟨by omega, by omega, ?_⟩
        exact hcond
      · rw [if_neg hcond]
        apply ih acc ((left + right) / 2 + 1) right (by omega) (by omega) hr (by omega) ?_ hJ2
        intro i hi hin
        by_cases hileft : (i : ℤ) < left
        · exact hJ1 i hileft hin
        · have hile : i ≤ ((left + right) / 2).toNat := by omega
          have hmlen : ((left + right) / 2).toNat < scores.length := by omega
          have hmono : (scores.getD i default).1 ≤
              (scores.getD ((left + right) / 2).toNat default).1 := by
            rcases lt_or_eq_of_le hile with hlt | heq
            · exact le_of_lt (hsort i _ hlt hmlen)
            · rw [heq]
          exact lt_of_le_of_lt hmono (not_le.mp hcond)
    · have hexit : lowerLoop scores w (fuel + 1) acc left right = acc := by
        simp [lowerLoop, hlr2]
      rw [hexit]
      rcases hJ2 with ⟨hacc, hrlen, hw⟩ | ⟨hacc, hright⟩
      · right
        refine ⟨by omega, hw, ?_⟩
        intro i hi
        exact hJ1 i (by omega) (by omega)
      · left
        refine ⟨hacc, fun i hin => hJ1 i (by omega) hin⟩

/-- When every timestamp is at or below the window end, the window-end search
over `[left, length - 1]` lands on the last index. -/
lemma upperLoop_all (scores : List (ℚ × ℝ)) (w : ℚ)
    (hub : ∀ i : ℕ, i < scores.length → (scores.getD i default).1 ≤ w) :
    ∀ (fuel : ℕ) (acc : ℕ) (left : ℤ),
    ((scores.length : ℤ) - left).toNat < fuel →
    0 ≤ left → left ≤ (scores.length : ℤ) - 1 →
    upperLoop scores w fuel acc left ((scores.length : ℤ) - 1) = scores.length - 1 := by
  intro fuel
  induction fuel with
  | zero => intro acc left hfuel; omega
  | succ fuel ih =>
    intro acc left hfuel hl hleft
    simp only [upperLoop]
    rw [if_pos hleft]
    have hml : left ≤ (left + ((scores.length : ℤ) - 1)) / 2 := by omega
    have hmr : (left + ((scores.length : ℤ) - 1)) / 2 ≤ (scores.length : ℤ) - 1 := by omega
    have hcond : (scores.getD ((left + ((scores.length : ℤ) - 1)) / 2).toNat default).1 ≤ w :=
      hub _ (by omega)
    rw [if_pos hcond]
    by_cases hnext : (left + ((scores.length : ℤ) - 1)) / 2 + 1 ≤ (scores.length : ℤ) - 1
    · exact ih _ _ (by omega) (by omega) hnext
    · rw [upperLoop_exit _ _ _ _ _ _ (by omega)]
      omega

/-- Dropping exactly the below-window prefix of a sorted list whose every
timestamp is at or below the window end gives the in-window filter. -/
lemma drop_eq_filter_window (wstart wend : ℚ) :
    ∀ (scores : List (ℚ × ℝ)) (r : ℕ),
    r ≤ scores.length →
    (∀ i : ℕ, i < r → (scores.getD i default).1 < wstart) →
    (∀ i : ℕ, r ≤ i → i < scores.length → wstart ≤ (scores.getD i default).1) →
    (∀ i : ℕ, i < scores.length → (scores.getD i default).1 ≤ wend) →
    scores.drop r = scores.filter (fun q => decide (wstart ≤ q.1 ∧ q.1 ≤ wend)) := by
  intro scores
  induction scores with
  | nil => intro r _ _ _ _; simp
  | cons a l ih =>
    intro r hr hlt hge hub
    cases r with
    | zero =>
      rw [List.drop_zero]
      symm
      apply List.filter_eq_self.mpr
      intro x hx
      rcases List.mem_iff_get.mp hx with ⟨⟨i, hi⟩, rfl⟩
      have h1 := hge i (Nat.zero_le i) hi
      have h2 := hub i hi
      rw [getDpair_eq_get _ i hi] at h1 h2
      simp only [List.get_eq_getElem] at h1 h2
      simp [h1, h2]
    | succ r2 =>
      have ha : a.1 < wstart := by
        have := hlt 0 (Nat.succ_pos r2)
        simpa using this
      have hpred : ¬ (decide (wstart ≤ a.1 ∧ a.1 ≤ wend)) = true := by
        simp only [decide_eq_true_eq]
        rintro ⟨hc, -⟩
        exact absurd hc (not_le.mpr ha)
      rw [List.drop_succ_cons,
        List.filter_cons_of_neg (p := fun q : ℚ × ℝ => decide (wstart ≤ q.1 ∧ q.1 ≤ wend)) hpred]
      refine ih r2 (by simpa using hr) ?_ ?_ ?_
      · intro i hi
        have := hlt (i + 1) (by omega)
        simpa using this
      · intro i hri hin
        have := hge (i + 1) (by omega) (by simpa using Nat.succ_lt_succ hin)
        simpa using this
      · intro i hin
        have := hub (i + 1) (by simpa using Nat.succ_lt_succ hin)
        simpa using this

/-- The slice delimited by the two window binary searches on a strictly
sorted sample list equals the in-window filter, provided every timestamp is
at or below the window end and the last one is at or above the window
start. -/
lemma windowSlice_eq_filter (scores : List (ℚ × ℝ)) (wstart wend : ℚ)
    (hne : scores ≠ [])
    (hsort : ∀ i j : ℕ, i < j → j < scores.length →
      (scores.getD i default).1 < (scores.getD j default).1)
    (hub : ∀ i : ℕ, i < scores.length → (scores.getD i default).1 ≤ wend)
    (hex : wstart ≤ (scores.getD (scores.length - 1) default).1) :
    windowSlice scores wstart wend =
      scores.filter (fun q => decide (wstart ≤ q.1 ∧ q.1 ≤ wend)) := by
  have hlen : 0 < scores.length := List.length_pos.mpr hne
  have hlow := lowerLoop_spec scores wstart hsort (scores.length + 1) 0 0
    ((scores.length : ℤ) - 1) (by omega) (by omega) (by omega) (by omega)
    (fun i hi _ => absurd hi (by omega)) (Or.inr ⟨rfl, rfl⟩)
  simp only [windowSlice]
  rcases hlow with ⟨hr0, hall⟩ | ⟨hrlen, hge, hlt⟩
  · exact absurd hex (not_le.mpr (hall (scores.length - 1) (by omega)))
  · set r := lowerLoop scores wstart (scores.length + 1) 0 0 ((scores.length : ℤ) - 1)
      with hrdef
    have hup := upperLoop_all scores wend hub (scores.length + 1) r (r : ℤ)
      (by omega) (by omega) (by omega)
    rw [hup]
    have htake : scores.length - 1 + 1 - r = (scores.drop r).length := by
      rw [List.length_drop]; omega
    rw [htake, List.take_length]
    refine drop_eq_filter_window wstart wend scores r (le_of_lt hrlen) hlt ?_ hub
    intro i hri hin
    rcases lt_or_eq_of_le hri with h | h
    · exact le_trans hge (le_of_lt (hsort r i h hin))
    · rw [← h]; exact hge

/-- The two window binary searches of `consumePose`, run on a strictly sorted
sample list that was just extended by the aligned sample `(T, sc)` ahead of
all prior samples: with `0 ≤ windowSize`, the slice they delimit is exactly
the in-window filter, and it contains the new sample. -/
lemma append_window_filter (old : List (ℚ × ℝ)) (T : ℚ) (sc : ℝ) (ws : ℚ)
    (hsorted : old.Pairwise (fun a b => a.1 < b.1))
    (hbelow : ∀ q ∈ old, q.1 < T) (hws : 0 ≤ ws) :
    windowSlice (old ++ [(T, sc)]) (T - ws) T =
      (old ++ [(T, sc)]).filter (fun q => decide (T - ws ≤ q.1 ∧ q.1 ≤ T)) ∧
    (T, sc) ∈ windowSlice (old ++ [(T, sc)]) (T - ws) T := by
  have hne : old ++ [(T, sc)] ≠ [] := by simp
  have hlen : (old ++ [(T, sc)]).length = old.length + 1 := by simp
  have hpair : (old ++ [(T, sc)]).Pairwise (fun a b => a.1 < b.1) := by
    refine List.pairwise_append.mpr ⟨hsorted, List.pairwise_singleton _ _, ?_⟩
    intro a ha b hb
    have hb2 : b = (T, sc) := by simpa using hb
    subst hb2
    exact hbelow a ha
  have hsortIdx := pairwise_fst_index _ hpair
  have hub : ∀ i : ℕ, i < (old ++ [(T, sc)]).length →
      ((old ++ [(T, sc)]).getD i default).1 ≤ T := by
    intro i hi
    rw [getDpair_eq_get _ i hi]
    have hm : (old ++ [(T, sc)]).get ⟨i, hi⟩ ∈ old ++ [(T, sc)] := List.get_mem _ _ _
    rcases List.mem_append.mp hm with hmo | hms
    · exact le_of_lt (hbelow _ hmo)
    · have : (old ++ [(T, sc)]).get ⟨i, hi⟩ = (T, sc) := by simpa using hms
      rw [this]
  have hlast : ((old ++ [(T, sc)]).getD ((old ++ [(T, sc)]).length - 1) default) = (T, sc) := by
    rw [getDpair_eq_get _ _ (by omega)]
    have : (old ++ [(T, sc)]).length - 1 = old.length := by omega
    simp only [List.get_eq_getElem, this]
    rw [List.getElem_append_right (le_refl old.length)]
    simp
  have hex : T - ws ≤ ((old ++ [(T, sc)]).getD ((old ++ [(T, sc)]).length - 1) default).1 := by
    rw [hlast]
    dsimp only
    linarith
  have hfilter := windowSlice_eq_filter (old ++ [(T, sc)]) (T - ws) T hne hsortIdx hub hex
  refine ⟨hfilter, ?_⟩
  rw [hfilter]
  refine List.mem_filter.mpr ⟨by simp, ?_⟩
  simp only [decide_eq_true_eq]
  constructor
  · linarith
  · exact le_refl T

/-- **C3.**  On a scoring call (staleness gate passed) with a nonnegative
window size, the value returned — and stored as `current_window_average` — is
the arithmetic mean of the scores of exactly those recorded samples (new
sample included) whose timestamps lie in the closed window
`[T - windowSize, T]` around the aligned reference timestamp `T`.  On the
spec's example — samples `(0,10), (2000,20), (6000,30)`, window size 5000,
current timestamp 6000 — the code's own windowing yields `(20 + 30) / 2 =
25`. -/
theorem consume_returns_window_mean :
    (∀ (s : SessionScorer) (p : TimestampedPoses),
      ScorerInv s → 0 ≤ s.window_size →
      ¬ s.levelData.pose_data.length = 0 →
      s.lastScoredTimestamp < (alignRef s.levelData.pose_data p.timestamp).timestamp →
      (let T := (alignRef s.levelData.pose_data p.timestamp).timestamp
       let ns := s.timestamp_scores ++
         [(T, comparePoses2D p.poses.headI
            (alignRef s.levelData.pose_data p.timestamp).poses.headI)]
       let w := ns.filter (fun q => decide (T - s.window_size ≤ q.1 ∧ q.1 ≤ T))
       (consumePose s p).2 = (w.map Prod.snd).sum / (w.length : ℝ) ∧
       (consumePose s p).1.current_window_average =
         (w.map Prod.snd).sum / (w.length : ℝ))) ∧
    windowAverageOf (windowSlice [(0, 10), (2000, 20), (6000, 30)] 1000 6000) = 25 := by
  constructor
  · intro s p hinv hws h0 h1
    have hbelow : ∀ q ∈ s.timestamp_scores,
        q.1 < (alignRef s.levelData.pose_data p.timestamp).timestamp :=
      fun q hq => lt_of_le_of_lt (hinv.2 q hq) h1
    have hwin := append_window_filter s.timestamp_scores
      (alignRef s.levelData.pose_data p.timestamp).timestamp
      (comparePoses2D p.poses.headI (alignRef s.levelData.pose_data p.timestamp).poses.headI)
      s.window_size hinv.1 hbelow hws
    have hmem := hwin.2
    rw [hwin.1] at hmem
    have hpos : 0 < ((s.timestamp_scores ++
        [((alignRef s.levelData.pose_data p.timestamp).timestamp,
          comparePoses2D p.poses.headI
            (alignRef s.levelData.pose_data p.timestamp).poses.headI)]).filter
        (fun q => decide ((alignRef s.levelData.pose_data p.timestamp).timestamp -
            s.window_size ≤ q.1 ∧
          q.1 ≤ (alignRef s.levelData.pose_data p.timestamp).timestamp))).length :=
      List.length_pos.mpr (List.ne_nil_of_mem hmem)
    rw [consumePose_scoring s p h0 h1]
    dsimp only
    rw [hwin.1, windowAverageOf, if_pos hpos]
    exact ⟨rfl, rfl⟩
  · norm_num [windowAverageOf, windowSlice, lowerLoop, upperLoop,
      show Int.toNat 1 = 1 from rfl, show Int.toNat 2 = 2 from rfl]

/-- Witness for the windowed-average theorem: a session with prior samples
`(0,10), (2000,20)`, watermark 2000, window 5000, aligning a live frame at
5500 to the reference entry at 6000. -/
theorem consume_returns_window_mean_witness :
    (let T := (alignRef windowStateW.levelData.pose_data liveFrameW.timestamp).timestamp
     let ns := windowStateW.timestamp_scores ++
       [(T, comparePoses2D liveFrameW.poses.headI
          (alignRef windowStateW.levelData.pose_data liveFrameW.timestamp).poses.headI)]
     let w := ns.filter (fun q => decide (T - windowStateW.window_size ≤ q.1 ∧ q.1 ≤ T))
     (consumePose windowStateW liveFrameW).2 = (w.map Prod.snd).sum / (w.length : ℝ) ∧
     (consumePose windowStateW liveFrameW).1.current_window_average =
       (w.map Prod.snd).sum / (w.length : ℝ)) :=
  consume_returns_window_mean.1 windowStateW liveFrameW
    (by
      constructor
      · norm_num [windowStateW, SessionScorer.init]
      · intro q hq
        have h2 : q = ((0 : ℚ), (10 : ℝ)) ∨ q = ((2000 : ℚ), (20 : ℝ)) := by
          simpa [windowStateW, SessionScorer.init] using hq
        rcases h2 with h | h <;> rw [h] <;>
          norm_num [windowStateW, SessionScorer.init])
    (by norm_num [windowStateW, SessionScorer.init])
    (by norm_num [windowStateW, SessionScorer.init])
    (by norm_num [windowStateW, SessionScorer.init, liveFrameW, alignRef, closestLoop])

/-- **C10.**  On a scoring call with nonnegative window size, the slice
delimited by the two window binary searches always contains the sample just
appended (the window start `T - windowSize` is at most `T`), so the
empty-window branch of the average computation is unreachable and the value
returned is the mean of at least one score. -/
theorem consume_window_slice_nonempty (s : SessionScorer) (p : TimestampedPoses)
    (hinv : ScorerInv s) (hws : 0 ≤ s.window_size)
    (h0 : ¬ s.levelData.pose_data.length = 0)
    (h1 : s.lastScoredTimestamp < (alignRef s.levelData.pose_data p.timestamp).timestamp) :
    (let T := (alignRef s.levelData.pose_data p.timestamp).timestamp
     let sc := comparePoses2D p.poses.headI
       (alignRef s.levelData.pose_data p.timestamp).poses.headI
     let slice := windowSlice (s.timestamp_scores ++ [(T, sc)]) (T - s.window_size) T
     (T, sc) ∈ slice ∧ slice ≠ [] ∧
     (consumePose s p).2 = (slice.map Prod.snd).sum / (slice.length : ℝ)) := by
  intro T sc slice
  have hbelow : ∀ q ∈ s.timestamp_scores, q.1 < T :=
    fun q hq => lt_of_le_of_lt (hinv.2 q hq) h1
  have hwin := append_window_filter s.timestamp_scores T sc s.window_size hinv.1 hbelow hws
  have hmem : (T, sc) ∈ slice := hwin.2
  have hne : slice ≠ [] := List.ne_nil_of_mem hmem
  have hpos : 0 < slice.length := List.length_pos.mpr hne
  refine ⟨hmem, hne, ?_⟩
  rw [consumePose_scoring s p h0 h1]
  dsimp only
  show windowAverageOf slice = (slice.map Prod.snd).sum / (slice.length : ℝ)
  rw [windowAverageOf, if_pos hpos]

/-- Witness for the nonempty-window-slice theorem, at the same concrete
session and live frame as the windowed-average witness. -/
theorem consume_window_slice_nonempty_witness :
    (let T := (alignRef windowStateW.levelData.pose_data liveFrameW.timestamp).timestamp
     let sc := comparePoses2D liveFrameW.poses.headI
       (alignRef windowStateW.levelData.pose_data liveFrameW.timestamp).poses.headI
     let slice := windowSlice (windowStateW.timestamp_scores ++ [(T, sc)])
       (T - windowStateW.window_size) T
     (T, sc) ∈ slice ∧ slice ≠ [] ∧
     (consumePose windowStateW liveFrameW).2 =
       (slice.map Prod.snd).sum / (slice.length : ℝ)) :=
  consume_window_slice_nonempty windowStateW liveFrameW
    (by
      constructor
      · norm_num [windowStateW, SessionScorer.init]
      · intro q hq
        have h2 : q = ((0 : ℚ), (10 : ℝ)) ∨ q = ((2000 : ℚ), (20 : ℝ)) := by
          simpa [windowStateW, SessionScorer.init] using hq
        rcases h2 with h | h <;> rw [h] <;>
          norm_num [windowStateW, SessionScorer.init])
    (by norm_num [windowStateW, SessionScorer.init])
    (by norm_num [windowStateW, SessionScorer.init])
    (by norm_num [windowStateW, SessionScorer.init, liveFrameW, alignRef, closestLoop])

end DanceScore
